import Mathlib

set_option maxHeartbeats 1000000

namespace UnicornETL

/-! Shallow embedding of the load/reconciliation core of
`src/unicorn_extractor.py`: the field normalizer `clean_currency_value`,
the batch shaper's text-column handling, the date-dimension reconciler,
the company-dimension reconciler, the fact upserter, and the per-cycle
orchestration around them.  Python strings are `List Char`; dataframe
cells are `PyVal`; the storage boundary is explicit state passing with
error oracles standing for storage exceptions. -/

/-- A Python runtime value as it occurs in a transformed dataframe cell:
a string, a float (`num`), the float NaN, or Python `None` (`absent`). -/
inductive PyVal where
  | str (s : List Char)
  | num (q : ℚ)
  | nan
  | absent
deriving DecidableEq

/-- Python `s.replace(x, '')` for a one-character pattern: removes every
occurrence of the character `x`. -/
def removeCharL (x : Char) (l : List Char) : List Char :=
  l.filter (fun c => c != x)

/-- Python `str.strip()`: drop leading and trailing whitespace. -/
def trimL (l : List Char) : List Char :=
  ((l.dropWhile Char.isWhitespace).reverse.dropWhile Char.isWhitespace).reverse

/-- Python `str.lower()` on the characters of the string. -/
def toLowerL (l : List Char) : List Char :=
  l.map Char.toLower

/-- Python substring membership `x in s` for a single character `x`. -/
def hasChar (x : Char) (l : List Char) : Bool :=
  l.any (fun c => c == x)

/-- Numeric value of a run of decimal digits. -/
def natOfDigits (l : List Char) : ℕ :=
  l.foldl (fun a c => 10 * a + (c.toNat - 48)) 0

/-- Optional leading sign of a numeric literal. -/
def parseSign : List Char → ℤ × List Char
  | '+' :: r => (1, r)
  | '-' :: r => (-1, r)
  | l => (1, l)

/-- Split at the first character satisfying `p`; `none` when absent. -/
def splitAtChar (p : Char → Bool) : List Char → Option (List Char × List Char)
  | [] => none
  | c :: r =>
    if p c then some ([], r)
    else (splitAtChar p r).map (fun x => (c :: x.1, x.2))

/-- Mantissa of a Python float literal: an integer part and an optional
fractional part around at most one decimal point, at least one digit.
Returns the scaled digits `m` and the fraction length `k`; the denoted
value is `m / 10 ^ k`. -/
def parseMantissa (l : List Char) : Option (ℕ × ℕ) :=
  match splitAtChar (fun c => c == '.') l with
  | none =>
    if l ≠ [] ∧ l.all Char.isDigit then some (natOfDigits l, 0) else none
  | some (ip, fp) =>
    if (ip ≠ [] ∨ fp ≠ []) ∧ ip.all Char.isDigit ∧ fp.all Char.isDigit then
      some (natOfDigits ip * 10 ^ fp.length + natOfDigits fp, fp.length)
    else none

/-- Exponent part of a Python float literal: optional sign, then digits. -/
def parseExpPart (l : List Char) : Option ℤ :=
  let s := parseSign l
  if s.2 ≠ [] ∧ s.2.all Char.isDigit then some (s.1 * (natOfDigits s.2 : ℤ))
  else none

/-- The rational `sg * (m / 10 ^ k) * 10 ^ e`, assembled over the
integers. -/
def ratOfParts (sg : ℤ) (m k : ℕ) (e : ℤ) : ℚ :=
  if (k : ℤ) ≤ e then mkRat (sg * (m : ℤ) * 10 ^ (e - (k : ℤ)).toNat) 1
  else mkRat (sg * (m : ℤ)) (10 ^ ((k : ℤ) - e).toNat)

/-- Python `float(s)` on finite decimal literals: surrounding whitespace is
ignored, then an optional sign, a mantissa, and an optional `e`/`E`
exponent; anything else fails (models the `ValueError` path as `none`). -/
def pyFloat (l0 : List Char) : Option ℚ :=
  let l := trimL l0
  let s := parseSign l
  match splitAtChar (fun c => c == 'e' || c == 'E') s.2 with
  | none => (parseMantissa s.2).map (fun m => ratOfParts s.1 m.1 m.2 0)
  | some (mp, ep) =>
    match parseMantissa mp, parseExpPart ep with
    | some m, some e => some (ratOfParts s.1 m.1 m.2 e)
    | _, _ => none

/-- The `replace('$', '').replace(',', '').strip()` prelude of
`clean_currency_value` (source line 34). -/
def pyClean (s : List Char) : List Char :=
  trimL (removeCharL ',' (removeCharL '$' s))

/-- Wrap a parse result the way the `try/except ValueError` blocks do:
a parsed number stays a number, a parse failure becomes `None`. -/
def toPyNum : Option ℚ → PyVal
  | some q => .num q
  | none => .absent

/-- `clean_currency_value` (source lines 28-54).  Strings are cleaned of
`$`, `,` and surrounding whitespace; the literal `none` (case-insensitive)
and the empty string map to `None`; a string containing `B` has every `B`
removed and the rest parsed then scaled by 1000; otherwise a string
containing `M` has every `M` removed and the rest parsed unscaled;
otherwise the string is parsed directly; every parse failure maps to
`None`.  A non-string input is returned unchanged (source line 54). -/
def clean_currency_value : PyVal → PyVal
  | .str s0 =>
    let s := pyClean s0
    if toLowerL s = "none".toList ∨ s = [] then .absent
    else if hasChar 'B' s then
      toPyNum ((pyFloat (removeCharL 'B' s)).map (fun q => q * 1000))
    else if hasChar 'M' s then
      toPyNum (pyFloat (removeCharL 'M' s))
    else
      toPyNum (pyFloat s)
  | v => v

/-! ### Batch shaper: text columns (source lines 112-119)

A raw cell of a text column, as produced by `pd.read_csv`, is either a
string or the float NaN (a missing value).  Line 114 applies
`.astype(str)` to the column; line 119 then replaces the pandas missing
values NaN / NA / NaT and the empty string by Python `None`. -/

/-- A raw text-column cell read from the CSV: a string, or NaN when the
cell is missing. -/
inductive TextCell where
  | str (s : List Char)
  | nan
deriving DecidableEq

/-- `.astype(str)` on one text-column cell (source line 114): Python
`str()` of a string is the string itself, and `str()` of the float NaN is
the four-character string `nan`. -/
def astype_str : TextCell → List Char
  | .str s => s
  | .nan => "nan".toList

/-- The universal missing-value conversion of source line 119, applied to
a cell that `.astype(str)` has already turned into a string: of the
replaced values (NaN, NA, NaT, the empty string) only the empty string
can still occur, and it becomes `None`. -/
def universal_replace_text (s : List Char) : PyVal :=
  if s = [] then .absent else .str s

/-- The whole text-column pipeline for one cell: lines 114 and 119. -/
def shape_text_cell (c : TextCell) : PyVal :=
  universal_replace_text (astype_str c)

/-! ### Date dimension (source lines 131-159) -/

/-- A Python `datetime.date`. -/
structure Date where
  year : ℤ
  month : ℤ
  day : ℤ
deriving DecidableEq

/-- Day count of a proleptic-Gregorian civil date relative to 1970-01-01
(Howard Hinnant's `days_from_civil`, the standard civil-calendar day
count, used here to give `date.weekday()` its real meaning). -/
def daysFromCivil (dt : Date) : ℤ :=
  let y := if dt.month ≤ 2 then dt.year - 1 else dt.year
  let era := (if 0 ≤ y then y else y - 399) / 400
  let yoe := y - era * 400
  let mp := (dt.month + 9) % 12
  let doy := (153 * mp + 2) / 5 + dt.day - 1
  let doe := yoe * 365 + yoe / 4 - yoe / 100 + doy
  era * 146097 + doe - 719468

/-- Python `date.weekday()`: Monday is 0 and Sunday is 6.  1970-01-01 was
a Thursday, hence the offset 3. -/
def pyWeekday (dt : Date) : ℤ :=
  (daysFromCivil dt + 3) % 7

/-- A row of `dim_date` as built on source lines 135-142, without its
surrogate key. -/
structure DimDateRow where
  full_date : Date
  year : ℤ
  month : ℤ
  day : ℤ
  day_of_week : ℤ
  is_weekday : Bool
deriving DecidableEq

/-- The `dim_date_df` row for one date (source lines 135-142):
`d.year`, `d.month`, `d.day`, `d.weekday()`, `d.weekday() < 5`. -/
def mkDimDateRow (d : Date) : DimDateRow :=
  { full_date := d, year := d.year, month := d.month, day := d.day,
    day_of_week := pyWeekday d, is_weekday := decide (pyWeekday d < 5) }

/-- The `dim_date` table: rows with their storage-assigned surrogate
keys, and the next serially assigned key. -/
structure DateStore where
  rows : List (DimDateRow × ℕ)
  nextKey : ℕ
deriving DecidableEq

/-- The `existing_date_map` lookup (source lines 144-146): the surrogate
key of the row whose business key `full_date` is `d`, if any. -/
def lookup_date_key (st : DateStore) (d : Date) : Option ℕ :=
  (st.rows.find? (fun p => p.1.full_date == d)).map (fun p => p.2)

/-- Serial surrogate-key assignment of a bulk insert, starting at `k`. -/
def assignKeys (k : ℕ) : List DimDateRow → List (DimDateRow × ℕ)
  | [] => []
  | r :: rest => (r, k) :: assignKeys (k + 1) rest

/-- The date-dimension reconciliation (source lines 133-157): build the
dimension rows for the distinct load dates, keep only those whose
`full_date` is not already present, bulk-append them with fresh serial
keys (the `to_sql(if_exists='append')` call), and report how many rows
were inserted. -/
def reconcile_dates (st : DateStore) (dates : List Date) : DateStore × ℕ :=
  let newRows := (dates.map mkDimDateRow).filter
    (fun r => (lookup_date_key st r.full_date).isNone)
  ({ rows := st.rows ++ assignKeys st.nextKey newRows,
     nextKey := st.nextKey + newRows.length }, newRows.length)

/-- Whether the cycle reaches the `to_sql` insert at all (source line
150): the insert runs only when some date is genuinely new. -/
def date_insert_attempted (st : DateStore) (dates : List Date) : Bool :=
  !((dates.map mkDimDateRow).filter
    (fun r => (lookup_date_key st r.full_date).isNone)).isEmpty

/-! ### Company dimension (source lines 161-209) -/

/-- The mutable attributes of a `dim_company` row (source line 162),
besides the business key `company_name`. -/
structure CompanyAttrs where
  industry : PyVal
  country : PyVal
  city : PyVal
  founded_year : PyVal
  date_joined_unicorn_club : PyVal
  select_investors : PyVal
deriving DecidableEq

/-- One row of `dim_company_df`: the business key and the attributes. -/
structure CompanyRow where
  company_name : List Char
  attrs : CompanyAttrs
deriving DecidableEq

/-- `drop_duplicates(subset=['company_name'])` with the default
`keep='first'` (source line 163): keep each name's first occurrence. -/
def dropDupAux : List CompanyRow → List (List Char) → List CompanyRow
  | [], _ => []
  | r :: rest, seen =>
    if r.company_name ∈ seen then dropDupAux rest seen
    else r :: dropDupAux rest (r.company_name :: seen)

/-- The deduplicated `dim_company_df` frame of source line 163. -/
def drop_duplicates_by_name (rows : List CompanyRow) : List CompanyRow :=
  dropDupAux rows []

/-- The `dim_company` table: (surrogate key, business key, attributes)
rows plus the next serially assigned key. -/
structure CompanyStore where
  rows : List (ℕ × List Char × CompanyAttrs)
  nextKey : ℕ
deriving DecidableEq

/-- The `SELECT company_key FROM dim_company WHERE company_name = ...`
lookup of source line 172. -/
def lookupCompany (st : CompanyStore) (nm : List Char) : Option ℕ :=
  (st.rows.find? (fun p => p.2.1 == nm)).map (fun p => p.1)

/-- The `UPDATE dim_company SET ... WHERE company_name = ...` of source
lines 178-188: overwrite every mutable attribute, keep the key. -/
def updateCompany (st : CompanyStore) (nm : List Char) (a : CompanyAttrs) :
    CompanyStore :=
  { st with
    rows := st.rows.map (fun p => if p.2.1 = nm then (p.1, p.2.1, a) else p) }

/-- The `INSERT INTO dim_company ... RETURNING company_key` of source
lines 191-196: append a new row, return the storage-assigned key. -/
def insertCompany (st : CompanyStore) (nm : List Char) (a : CompanyAttrs) :
    CompanyStore × ℕ :=
  ({ rows := st.rows ++ [(st.nextKey, nm, a)], nextKey := st.nextKey + 1 },
   st.nextKey)

/-- The state threaded through the company loop: the store, the
per-name key mapping written into `df_transformed['company_key']`
(`none` when the company failed), and the inserted/updated counters. -/
structure CompanyCycleState where
  store : CompanyStore
  keymap : List (List Char × Option ℕ)
  inserted : ℕ
  updated : ℕ
deriving DecidableEq

/-- The storage effect of one successful company sub-transaction (the
body of the `try` block, source lines 172-201): update when the business
key exists, insert otherwise. -/
def apply_company (st : CompanyStore) (r : CompanyRow) : CompanyStore :=
  match lookupCompany st r.company_name with
  | some _ => updateCompany st r.company_name r.attrs
  | none => (insertCompany st r.company_name r.attrs).1

/-- One iteration of the company loop (source lines 168-207) with an
error oracle `err` standing for *any* exception inside this company's
sub-transaction: on error the `connection.rollback()` leaves the store as
it was before this company, the company's key is recorded as `None`
(source line 207), and the loop moves on; otherwise the lookup/update or
insert runs, the key is recorded, and one counter is bumped. -/
def process_company (err : CompanyRow → Bool) (s : CompanyCycleState)
    (r : CompanyRow) : CompanyCycleState :=
  if err r then
    { s with keymap := s.keymap ++ [(r.company_name, none)] }
  else
    match lookupCompany s.store r.company_name with
    | some k =>
      { store := updateCompany s.store r.company_name r.attrs,
        keymap := s.keymap ++ [(r.company_name, some k)],
        inserted := s.inserted, updated := s.updated + 1 }
    | none =>
      { store := (insertCompany s.store r.company_name r.attrs).1,
        keymap := s.keymap ++ [(r.company_name,
          some (insertCompany s.store r.company_name r.attrs).2)],
        inserted := s.inserted + 1, updated := s.updated }

/-- The whole company-dimension loop of source lines 165-207. -/
def reconcile_companies (err : CompanyRow → Bool) (st : CompanyStore)
    (rows : List CompanyRow) : CompanyCycleState :=
  rows.foldl (process_company err) ⟨st, [], 0, 0⟩

/-! ### Fact upsert (source lines 211-253) -/

/-- The non-key payload of one `fact_unicorn_snapshot` row. -/
structure FactVals where
  valuation_billion : PyVal
  total_raised_million : PyVal
  financial_stage : PyVal
  investors_count : PyVal
  deal_terms : PyVal
  portfolio_exits : PyVal
deriving DecidableEq

/-- A dimension-key cell of the fact frame as pandas actually holds it.
The `company_key` column is created by the line-199 `.loc` assignment of
an `int` into a partially-indexed new column, which makes it float64
with NaN in the unassigned rows; line 207's `None` for a failed company
is then coerced to the float NaN by pandas.  Likewise line 159's
`.map` puts NaN (not `None`) in `load_date_key` for an unmapped date.
So a key cell is a float key, the float NaN, or — the only value the
line-219 `is None` test can ever catch — a literal Python `None`. -/
inductive KeyCell where
  | val (k : ℕ)
  | nan
  | pynone
deriving DecidableEq

/-- One candidate fact row of `df_fact` (source lines 212-213): the two
dimension-key cells as the dataframe holds them and the payload. -/
structure FactRow where
  load_date_key : KeyCell
  company_key : KeyCell
  vals : FactVals
deriving DecidableEq

/-- What storage does with one attempted fact upsert: returns a row
count (the `result.rowcount` of source line 241), or raises. -/
inductive FactOutcome where
  | ok (rowcount : ℕ)
  | error
deriving DecidableEq

/-- The accumulating result of the fact loop: the two counters of source
lines 215-216 and the list of rows actually sent to storage. -/
structure FactResult where
  written : ℕ
  skipped : ℕ
  sent : List FactRow
deriving DecidableEq

/-- How the fact loop ends: it runs off the end of the frame with its
counters, or it crashes — line 224's `int(row_data['company_key'])`
sits *before* the per-row `try`, so on a NaN key the `ValueError` it
raises propagates out of the loop to the handler of lines 257-258.
`sofar` is the accumulated state at the crash (per-row commits already
durable) and `r` the crashing row. -/
inductive FactLoopResult where
  | finished (res : FactResult)
  | crashed (sofar : FactResult) (r : FactRow)
deriving DecidableEq

/-- The fact loop of source lines 218-251, with an outcome oracle for
the storage call.  Per row: line 219's pre-filter tests `is None`, so it
catches only a literal Python `None` key and counts the row skipped
without a storage call; then line 224 converts `company_key` with
`int(...)` *outside* the `try` — on the float NaN (the form an absent
company key actually takes) this raises and the loop crashes; otherwise
the upsert is attempted (a NaN `load_date_key` row *is* sent): a
positive row count counts as written, a zero row count as skipped, and
a storage exception rolls back just this row and counts it skipped
(lines 241-251). -/
def upsert_loop (outcome : FactRow → FactOutcome) :
    List FactRow → FactResult → FactLoopResult
  | [], s => .finished s
  | r :: rest, s =>
    if r.company_key = KeyCell.pynone ∨ r.load_date_key = KeyCell.pynone then
      upsert_loop outcome rest { s with skipped := s.skipped + 1 }
    else if r.company_key = KeyCell.nan then
      .crashed s r
    else
      match outcome r with
      | .ok rc =>
        if 0 < rc then
          upsert_loop outcome rest
            { written := s.written + 1, skipped := s.skipped,
              sent := s.sent ++ [r] }
        else
          upsert_loop outcome rest
            { written := s.written, skipped := s.skipped + 1,
              sent := s.sent ++ [r] }
      | .error =>
        upsert_loop outcome rest
          { written := s.written, skipped := s.skipped + 1,
            sent := s.sent ++ [r] }

/-- The whole fact-upsert loop of source lines 215-251. -/
def upsert_facts (outcome : FactRow → FactOutcome)
    (rows : List FactRow) : FactLoopResult :=
  upsert_loop outcome rows ⟨0, 0, []⟩

/-! ### The per-cycle orchestration (source lines 128-253) -/

/-- One shaped input record, as relevant to the dimension and fact
loads: the company projection and the fact payload.  Every record of a
cycle carries the same `load_date` (source line 121), which the cycle
takes separately. -/
structure NormalizedRecord where
  company : CompanyRow
  facts : FactVals
deriving DecidableEq

/-- Terminal status of one cycle: `done` with the per-cycle summary
counts, aborted because the date-dimension insert failed, or aborted
because the fact loop crashed (line 224's `int()` on a NaN company key,
caught only by the cycle-level handler of lines 257-258). -/
inductive CycleResult where
  | done (dates_inserted companies_inserted companies_updated
      facts_written facts_skipped : ℕ)
  | abortedDate
  | abortedFact
deriving DecidableEq

/-- The persistent star schema acted on by a cycle. -/
structure Warehouse where
  dates : DateStore
  companies : CompanyStore
deriving DecidableEq

/-- The `company_key` cell a record's row holds after the company loop:
a successful company's key was written as an `int` (line 199), a failed
company's `None` (line 207) was coerced to the float NaN by the float64
column, and a row never assigned keeps the NaN the column was created
with. -/
def companyKeyCell (keymap : List (List Char × Option ℕ))
    (nm : List Char) : KeyCell :=
  match keymap.lookup nm with
  | some (some k) => .val k
  | some none => .nan
  | none => .nan

/-- The `load_date_key` cell of every row, from line 159's `.map`:
the mapped key, or NaN when the date is unmapped. -/
def dateKeyCell (o : Option ℕ) : KeyCell :=
  match o with
  | some k => .val k
  | none => .nan

/-- One load cycle (source lines 128-253).  `dateFail` says whether the
`to_sql` insert into `dim_date` raises if it runs; when it does, the
exception propagates to the handlers of lines 255-258 before any company
or fact statement executes, nothing is committed, and the cycle is
aborted.  Otherwise the three loads run in order: date reconciliation,
company reconciliation (with its per-company error oracle), and the fact
upsert (with its per-row outcome oracle); the fact rows take the single
load date's key cell and each record's company key cell from this
cycle's dataframe columns.  A crash of the fact loop is caught only by
the cycle-level handler, aborting the cycle; the per-company and
per-date commits already made are durable either way.  The returned
list is the fact rows actually sent to storage. -/
def run_cycle (dateFail : Bool) (cerr : CompanyRow → Bool)
    (fout : FactRow → FactOutcome) (wh : Warehouse) (load_date : Date)
    (records : List NormalizedRecord) :
    CycleResult × Warehouse × List FactRow :=
  if dateFail && date_insert_attempted wh.dates [load_date] then
    (.abortedDate, wh, [])
  else
    let dres := reconcile_dates wh.dates [load_date]
    let dkey := dateKeyCell (lookup_date_key dres.1 load_date)
    let cres := reconcile_companies cerr wh.companies
      (drop_duplicates_by_name (records.map (fun rec => rec.company)))
    let factRows := records.map (fun rec =>
      { load_date_key := dkey,
        company_key := companyKeyCell cres.keymap rec.company.company_name,
        vals := rec.facts : FactRow })
    match upsert_facts fout factRows with
    | .finished fres =>
      (.done dres.2 cres.inserted cres.updated fres.written fres.skipped,
       { dates := dres.1, companies := cres.store }, fres.sent)
    | .crashed sofar _ =>
      (.abortedFact,
       { dates := dres.1, companies := cres.store }, sofar.sent)

/-- The characters a plain numeric literal may consist of: digits, a
decimal point, and a sign. -/
def plainNumChar (c : Char) : Bool :=
  c.isDigit || c == '.' || c == '+' || c == '-'

/-! ### Concrete fixtures used by the witness theorems -/

/-- An all-absent attribute record. -/
def noAttrs : CompanyAttrs :=
  ⟨.absent, .absent, .absent, .absent, .absent, .absent⟩

/-- Fixture: company `Acme` with industry `Tech`. -/
def acmeTech : CompanyRow :=
  ⟨"Acme".toList, ⟨.str "Tech".toList, .absent, .absent, .absent, .absent,
    .absent⟩⟩

/-- Fixture: a second `Acme` row with industry `Retail`. -/
def acmeRetail : CompanyRow :=
  ⟨"Acme".toList, ⟨.str "Retail".toList, .absent, .absent, .absent, .absent,
    .absent⟩⟩

/-- Fixture: company `Beta`. -/
def betaRow : CompanyRow := ⟨"Beta".toList, noAttrs⟩

/-- Fixture: company `Bad`, used as the company whose sub-transaction
fails. -/
def badRow : CompanyRow := ⟨"Bad".toList, noAttrs⟩

/-- Fixture: an all-absent fact payload. -/
def noFacts : FactVals :=
  ⟨.absent, .absent, .absent, .absent, .absent, .absent⟩

/-- Fixture: a concrete load date. -/
def someDate : Date := ⟨2024, 1, 1⟩

/-- Fixture: an empty warehouse. -/
def emptyWarehouse : Warehouse := ⟨⟨[], 0⟩, ⟨[], 0⟩⟩

/-! ## Helper lemmas -/

lemma digit_toLower {c : Char} (h : c.isDigit = true) : c.toLower = c := by
  simp [Char.isDigit] at h
  simp [Char.toLower]
  intro hc
  exfalso
  have hx : c.val.toNat ≤ (57 : UInt32).toNat := h.2
  have h57 : (57 : UInt32).toNat = 57 := rfl
  have hcv : c.toNat = c.val.toNat := rfl
  omega

lemma digit_not_whitespace {c : Char} (h : c.isDigit = true) :
    c.isWhitespace = false := by
  cases hb : c.isWhitespace
  · rfl
  · exfalso
    have hw : (c = ' ' ∨ c = '\t') ∨ c = '\r' ∨ c = '\n' := by
      simpa [Char.isWhitespace, or_assoc] using hb
    rcases hw with (h1 | h1) | h1 | h1 <;> subst h1 <;> simp at h

lemma plainNumChar_ne {c : Char} (h : plainNumChar c = true) (x : Char)
    (hx : plainNumChar x = false) : c ≠ x := by
  intro hc
  subst hc
  rw [h] at hx
  exact Bool.true_eq_false ▸ hx

lemma plainNumChar_not_whitespace {c : Char} (h : plainNumChar c = true) :
    c.isWhitespace = false := by
  simp only [plainNumChar, Bool.or_eq_true, beq_iff_eq] at h
  rcases h with ((hd | hd) | hd) | hd
  · exact digit_not_whitespace hd
  all_goals subst hd; rfl

lemma plainNumChar_toLower {c : Char} (h : plainNumChar c = true) :
    c.toLower = c := by
  simp only [plainNumChar, Bool.or_eq_true, beq_iff_eq] at h
  rcases h with ((hd | hd) | hd) | hd
  · exact digit_toLower hd
  all_goals subst hd; rfl

lemma dropWhile_eq_self_of_all {p : Char → Bool} {l : List Char}
    (h : ∀ c ∈ l, p c = false) : l.dropWhile p = l := by
  cases l with
  | nil => rfl
  | cons a rest => rw [List.dropWhile_cons, h a (by simp)]; simp

lemma trimL_eq_self {l : List Char}
    (h : ∀ c ∈ l, c.isWhitespace = false) : trimL l = l := by
  unfold trimL
  rw [dropWhile_eq_self_of_all h, dropWhile_eq_self_of_all
    (fun c hc => h c (List.mem_reverse.mp hc)), List.reverse_reverse]

lemma removeCharL_eq_self {x : Char} {l : List Char}
    (h : ∀ c ∈ l, c ≠ x) : removeCharL x l = l := by
  unfold removeCharL
  exact List.filter_eq_self.mpr (fun c hc => by simpa using h c hc)

lemma hasChar_eq_false {x : Char} {l : List Char}
    (h : ∀ c ∈ l, c ≠ x) : hasChar x l = false := by
  unfold hasChar
  simp only [List.any_eq_false, beq_iff_eq]
  intro c hc
  exact fun hcx => h c hc (by simpa using hcx)

/-- Unfolding of `clean_currency_value` on a string input. -/
lemma clean_str_eval (s : List Char) :
    clean_currency_value (.str s)
      = if toLowerL (pyClean s) = "none".toList ∨ pyClean s = [] then
          .absent
        else if hasChar 'B' (pyClean s) then
          toPyNum ((pyFloat (removeCharL 'B' (pyClean s))).map
            (fun q => q * 1000))
        else if hasChar 'M' (pyClean s) then
          toPyNum (pyFloat (removeCharL 'M' (pyClean s)))
        else
          toPyNum (pyFloat (pyClean s)) := rfl

/-! ## Claim theorems -/

/-- Claim C2 (code bug): the accounting invariant does not survive
absent keys.  A fact row whose `company_key` is the float NaN — the
form an absent company key actually takes once line 207's `None` is
coerced by the float64 column — slips past line 219's `is None`
pre-filter and crashes line 224's `int()` outside the per-row `try`, so
the loop never returns its counters at all (first conjunct: one
candidate row, nothing counted at the crash).  A NaN `load_date_key`
row likewise passes the pre-filter and is sent to storage rather than
skipped (second conjunct).  Only a literal Python `None` key is skipped
and counted without a storage call as the claim describes (third
conjunct). -/
theorem C2_upsert_facts_accounting_bug :
    upsert_facts (fun _ => .ok 1)
        [⟨KeyCell.val 0, KeyCell.nan, noFacts⟩]
      = .crashed ⟨0, 0, []⟩ ⟨KeyCell.val 0, KeyCell.nan, noFacts⟩ ∧
    upsert_facts (fun _ => .ok 1)
        [⟨KeyCell.nan, KeyCell.val 1, noFacts⟩]
      = .finished ⟨1, 0, [⟨KeyCell.nan, KeyCell.val 1, noFacts⟩]⟩ ∧
    upsert_facts (fun _ => .ok 1)
        [⟨KeyCell.val 0, KeyCell.pynone, noFacts⟩]
      = .finished ⟨0, 1, []⟩ := by
  exact ⟨by decide, by decide, by decide⟩

/-- Claim C8 (code bug): the batch shaper does *not* map a missing (NaN)
text cell to the absent marker.  Line 114's `astype(str)` turns NaN into
the literal string `"nan"`, and line 119's universal replacement matches
the float NaN, not that string — so the raw missing-value sentinel
`"nan"` reaches the storage calls, contradicting the comment on line 115
(`universal conversion below will handle it`).  Empty strings and present
strings behave as claimed. -/
theorem C8_text_shaping_nan_sentinel :
    shape_text_cell .nan = .str ("nan".toList) ∧
    shape_text_cell .nan ≠ .absent ∧
    shape_text_cell (.str []) = .absent ∧
    shape_text_cell (.str ("Fintech".toList)) = .str ("Fintech".toList) := by
  exact ⟨by decide, by decide, by decide, by decide⟩

/-- Claim C9: every `dim_date` row built by the cycle has derived fields
that are pure functions of `full_date` and agree with it: `year`,
`month`, `day` are the calendar components, `day_of_week` is Python's
weekday index (0 = Monday, in `[0, 7)`), and `is_weekday` holds exactly
for indices below 5, i.e. Monday through Friday; two rows with the same
`full_date` are identical. -/
theorem C9_dim_date_derived (d : Date) :
    (mkDimDateRow d).year = d.year ∧
    (mkDimDateRow d).month = d.month ∧
    (mkDimDateRow d).day = d.day ∧
    (mkDimDateRow d).day_of_week = pyWeekday ((mkDimDateRow d).full_date) ∧
    0 ≤ (mkDimDateRow d).day_of_week ∧
    (mkDimDateRow d).day_of_week < 7 ∧
    ((mkDimDateRow d).is_weekday = true ↔ (mkDimDateRow d).day_of_week < 5) ∧
    ∀ d2 : Date, (mkDimDateRow d).full_date = (mkDimDateRow d2).full_date →
      mkDimDateRow d = mkDimDateRow d2 := by
  refine ⟨rfl, rfl, rfl, rfl, ?_, ?_, by simp [mkDimDateRow], ?_⟩
  · exact Int.emod_nonneg _ (by norm_num)
  · exact Int.emod_lt_of_pos _ (by norm_num)
  · intro d2 hfd
    have : d = d2 := hfd
    rw [this]

lemma dropDupAux_filter (nm : List Char) :
    ∀ (l : List CompanyRow) (seen : List (List Char)),
      (dropDupAux l seen).filter (fun r => r.company_name == nm)
        = if nm ∈ seen then []
          else (l.find? (fun r => r.company_name == nm)).toList := by
  intro l
  induction l with
  | nil => intro seen; by_cases h : nm ∈ seen <;> simp [dropDupAux, h]
  | cons r rest ih =>
    intro seen
    by_cases hmem : r.company_name ∈ seen
    · rw [dropDupAux, if_pos hmem, ih seen]
      by_cases hr : r.company_name = nm
      · subst hr
        rw [if_pos hmem, if_pos hmem]
      · rw [List.find?_cons_of_neg _ (by simpa using hr)]
    · rw [dropDupAux, if_neg hmem]
      by_cases hr : r.company_name = nm
      · subst hr
        rw [List.filter_cons_of_pos (by simp), ih, if_pos (by simp),
          if_neg hmem, List.find?_cons_of_pos _ (by simp)]
        rfl
      · rw [List.filter_cons_of_neg (by simpa using hr), ih,
          List.find?_cons_of_neg _ (by simpa using hr)]
        by_cases hs : nm ∈ seen
        · rw [if_pos hs, if_pos (by simp [hs]), ]
        · rw [if_neg hs, if_neg (by simp [hs, Ne.symm hr])]

lemma dropDupAux_nodup :
    ∀ (l : List CompanyRow) (seen : List (List Char)),
      ((dropDupAux l seen).map (fun r => r.company_name)).Nodup ∧
      ∀ nm ∈ (dropDupAux l seen).map (fun r => r.company_name), nm ∉ seen := by
  intro l
  induction l with
  | nil => intro seen; simp [dropDupAux]
  | cons r rest ih =>
    intro seen
    by_cases hmem : r.company_name ∈ seen
    · rw [dropDupAux, if_pos hmem]
      exact ih seen
    · rw [dropDupAux, if_neg hmem]
      obtain ⟨ihn, ihs⟩ := ih (r.company_name :: seen)
      refine ⟨?_, ?_⟩
      · simp only [List.map_cons, List.nodup_cons]
        exact ⟨fun hc => (ihs _ hc) (by simp), ihn⟩
      · intro nm hnm
        simp only [List.map_cons, List.mem_cons] at hnm
        rcases hnm with hnm | hnm
        · subst hnm; exact hmem
        · intro hs
          exact (ihs nm hnm) (by simp [hs])

/-- Claim C10: the company-dimension frame deduplicates by
`company_name` keeping the first occurrence: the reconciliation iterates
each name at most once, the surviving row for a name is exactly the
batch's first row with that name, and every surviving row is the first
occurrence of its name — so the attributes of later duplicate rows are
never written. -/
theorem C10_company_dedup_first_occurrence (rows : List CompanyRow) :
    ((drop_duplicates_by_name rows).map (fun r => r.company_name)).Nodup ∧
    (∀ nm : List Char,
      (drop_duplicates_by_name rows).filter (fun r => r.company_name == nm)
        = (rows.find? (fun r => r.company_name == nm)).toList) ∧
    ∀ r ∈ drop_duplicates_by_name rows,
      rows.find? (fun x => x.company_name == r.company_name) = some r := by
  refine ⟨(dropDupAux_nodup rows []).1, ?_, ?_⟩
  · intro nm
    rw [drop_duplicates_by_name, dropDupAux_filter nm rows [], if_neg (by simp)]
  · intro r hr
    have hfil := dropDupAux_filter r.company_name rows []
    rw [if_neg (by simp)] at hfil
    have hmem : r ∈ (dropDupAux rows []).filter
        (fun x => x.company_name == r.company_name) :=
      List.mem_filter.mpr ⟨hr, by simp⟩
    rw [hfil] at hmem
    cases hf : rows.find? (fun x => x.company_name == r.company_name) with
    | none => rw [hf] at hmem; simp at hmem
    | some y => rw [hf] at hmem; simp at hmem; rw [hmem]

/-- Witness for C10 at a concrete batch: two rows named `Acme` (with
different attributes) and one named `Beta`; the survivor for `Acme` is
the first row. -/
theorem C10_company_dedup_first_occurrence_witness :
    ((drop_duplicates_by_name [acmeTech, acmeRetail, betaRow]).map
        (fun r => r.company_name)).Nodup ∧
    (drop_duplicates_by_name [acmeTech, acmeRetail, betaRow]).filter
        (fun r => r.company_name == "Acme".toList)
      = [acmeTech] ∧
    List.find? (fun x : CompanyRow => x.company_name == acmeTech.company_name)
        [acmeTech, acmeRetail, betaRow]
      = some acmeTech := by
  have h := C10_company_dedup_first_occurrence [acmeTech, acmeRetail, betaRow]
  refine ⟨h.1, ?_, ?_⟩
  · rw [h.2.1 ("Acme".toList)]
    decide
  · exact h.2.2 acmeTech (by decide)

/-- Claim C7: `normalize_currency` is a pure total function of its
input.  A float input is returned unchanged (including the float NaN —
line 54 returns any non-string verbatim), Python `None` stays the absent
marker, and a string input always yields either a parsed decimal or the
absent marker — a parse failure at any stage becomes `None`, never an
exception. -/
theorem C7_normalize_currency_total :
    (∀ q : ℚ, clean_currency_value (.num q) = .num q) ∧
    clean_currency_value .nan = .nan ∧
    clean_currency_value .absent = .absent ∧
    ∀ s : List Char,
      (∃ q, clean_currency_value (.str s) = .num q) ∨
      clean_currency_value (.str s) = .absent := by
  refine ⟨fun q => rfl, rfl, rfl, ?_⟩
  intro s
  rw [clean_str_eval]
  by_cases h1 : toLowerL (pyClean s) = "none".toList ∨ pyClean s = []
  · right; rw [if_pos h1]
  · rw [if_neg h1]
    by_cases h2 : hasChar 'B' (pyClean s) = true
    · rw [if_pos h2]
      cases hp : pyFloat (removeCharL 'B' (pyClean s)) with
      | none => right; simp [toPyNum, hp]
      | some q => left; exact ⟨q * 1000, by simp [toPyNum, hp]⟩
    · rw [if_neg h2]
      by_cases h3 : hasChar 'M' (pyClean s) = true
      · rw [if_pos h3]
        cases hp : pyFloat (removeCharL 'M' (pyClean s)) with
        | none => right; simp [toPyNum, hp]
        | some q => left; exact ⟨q, by simp [toPyNum, hp]⟩
      · rw [if_neg h3]
        cases hp : pyFloat (pyClean s) with
        | none => right; simp [toPyNum, hp]
        | some q => left; exact ⟨q, by simp [toPyNum, hp]⟩

lemma find?_append_left {α : Type} {p : α → Bool} {l1 : List α}
    (l2 : List α) {y : α} (h : l1.find? p = some y) :
    (l1 ++ l2).find? p = some y := by
  induction l1 with
  | nil => simp at h
  | cons a l ih =>
    rw [List.cons_append]
    by_cases ha : p a
    · rw [List.find?_cons_of_pos _ ha] at h ⊢; exact h
    · rw [List.find?_cons_of_neg _ ha] at h ⊢; exact ih h

lemma find?_append_right {α : Type} {p : α → Bool} {l1 : List α}
    (l2 : List α) (h : l1.find? p = none) :
    (l1 ++ l2).find? p = l2.find? p := by
  induction l1 with
  | nil => simp
  | cons a l ih =>
    rw [List.cons_append]
    by_cases ha : p a
    · rw [List.find?_cons_of_pos _ ha] at h; exact absurd h (by simp)
    · rw [List.find?_cons_of_neg _ ha] at h
      rw [List.find?_cons_of_neg _ ha]
      exact ih h

lemma assignKeys_map_fst (k : ℕ) (l : List DimDateRow) :
    (assignKeys k l).map (fun p => p.1) = l := by
  induction l generalizing k with
  | nil => rfl
  | cons r rest ih => rw [assignKeys, List.map_cons, ih]

/-- After a reconciliation every reconciled date has a key. -/
lemma reconcile_dates_covers (st : DateStore) (dates : List Date) :
    ∀ d ∈ dates,
      (lookup_date_key (reconcile_dates st dates).1 d).isSome = true := by
  intro d hd
  unfold lookup_date_key reconcile_dates
  simp only
  cases hfind : st.rows.find? (fun p => p.1.full_date == d) with
  | some y =>
    rw [find?_append_left _ hfind]
    rfl
  | none =>
    rw [find?_append_right _ hfind]
    have hlk : (lookup_date_key st d).isNone = true := by
      unfold lookup_date_key
      rw [hfind]
      rfl
    have hmemNew : mkDimDateRow d ∈ (dates.map mkDimDateRow).filter
        (fun r => (lookup_date_key st r.full_date).isNone) := by
      refine List.mem_filter.mpr ⟨List.mem_map_of_mem _ hd, ?_⟩
      simpa [mkDimDateRow] using hlk
    have hmemKeys : mkDimDateRow d ∈
        ((assignKeys st.nextKey ((dates.map mkDimDateRow).filter
          (fun r => (lookup_date_key st r.full_date).isNone))).map
            (fun p => p.1)) := by
      rw [assignKeys_map_fst]
      exact hmemNew
    obtain ⟨pr, hpr, hfst⟩ := List.mem_map.mp hmemKeys
    have hsome : ((assignKeys st.nextKey ((dates.map mkDimDateRow).filter
        (fun r => (lookup_date_key st r.full_date).isNone))).find?
          (fun p => p.1.full_date == d)).isSome = true := by
      refine List.find?_isSome.mpr ⟨pr, hpr, ?_⟩
      rw [hfst]
      simp [mkDimDateRow]
    cases hres : (assignKeys st.nextKey ((dates.map mkDimDateRow).filter
        (fun r => (lookup_date_key st r.full_date).isNone))).find?
          (fun p => p.1.full_date == d) with
    | none => rw [hres] at hsome; simp at hsome
    | some z => rfl

/-- A reconciliation in which no date is new is a no-op. -/
lemma reconcile_dates_noop {st : DateStore} {dates : List Date}
    (h : (dates.map mkDimDateRow).filter
      (fun r => (lookup_date_key st r.full_date).isNone) = []) :
    reconcile_dates st dates = (st, 0) := by
  simp only [reconcile_dates]
  rw [h]
  simp [assignKeys]

/-- Claim C1: the date-dimension reconciliation is idempotent by
business-key lookup-before-insert.  Running it a second time with the
same date set inserts zero rows, leaves the store untouched, and yields
the same date-to-key mapping; and one run never introduces a duplicate
`full_date` into a store whose business keys were unique (for a
duplicate-free date set, as `unique()` produces). -/
theorem C1_reconcile_dates_idempotent (st : DateStore) (dates : List Date) :
    (reconcile_dates (reconcile_dates st dates).1 dates).2 = 0 ∧
    (reconcile_dates (reconcile_dates st dates).1 dates).1
      = (reconcile_dates st dates).1 ∧
    (∀ d : Date,
      lookup_date_key (reconcile_dates (reconcile_dates st dates).1 dates).1 d
        = lookup_date_key (reconcile_dates st dates).1 d) ∧
    ((st.rows.map (fun p => p.1.full_date)).Nodup → dates.Nodup →
      ((reconcile_dates st dates).1.rows.map
        (fun p => p.1.full_date)).Nodup) := by
  have hcov := reconcile_dates_covers st dates
  have hnil : ((dates.map mkDimDateRow).filter
      (fun r => (lookup_date_key (reconcile_dates st dates).1
        r.full_date).isNone)) = [] := by
    rw [List.filter_eq_nil_iff]
    intro r hr
    obtain ⟨d, hd, hrd⟩ := List.mem_map.mp hr
    have := hcov d hd
    subst hrd
    simp only [mkDimDateRow]
    intro hcontra
    rw [Option.isNone_iff_eq_none.mp hcontra] at this
    simp at this
  have hnoop := reconcile_dates_noop hnil
  refine ⟨?_, ?_, ?_, ?_⟩
  · rw [hnoop]
  · rw [hnoop]
  · intro d
    rw [hnoop]
  · intro hstN hdN
    show ((st.rows ++ assignKeys st.nextKey _).map
      (fun p => p.1.full_date)).Nodup
    rw [List.map_append]
    have hmapnew : (assignKeys st.nextKey ((dates.map mkDimDateRow).filter
        (fun r => (lookup_date_key st r.full_date).isNone))).map
          (fun p => p.1.full_date)
        = ((dates.map mkDimDateRow).filter
            (fun r => (lookup_date_key st r.full_date).isNone)).map
          (fun r => r.full_date) := by
      rw [show (fun p : DimDateRow × ℕ => p.1.full_date)
        = (fun r : DimDateRow => r.full_date) ∘ (fun p : DimDateRow × ℕ => p.1)
        from rfl]
      rw [← List.map_map, assignKeys_map_fst]
    rw [hmapnew]
    have hsub : List.Sublist
        (((dates.map mkDimDateRow).filter
          (fun r => (lookup_date_key st r.full_date).isNone)).map
            (fun r => r.full_date)) dates := by
      have h1 : List.Sublist
          ((dates.map mkDimDateRow).filter
            (fun r => (lookup_date_key st r.full_date).isNone))
          (dates.map mkDimDateRow) := List.filter_sublist _
      have h2 := h1.map (fun r => r.full_date)
      have h3 : (dates.map mkDimDateRow).map (fun r => r.full_date)
          = dates := by
        rw [List.map_map, show ((fun r : DimDateRow => r.full_date)
          ∘ mkDimDateRow) = fun d : Date => d from rfl]
        simp
      rw [h3] at h2
      exact h2
    refine List.Nodup.append hstN (hsub.nodup hdN) ?_
    intro x hx1 hx2
    obtain ⟨r, hr, hrx⟩ := List.mem_map.mp hx2
    have hcond := (List.mem_filter.mp hr).2
    have hnone : lookup_date_key st r.full_date = none :=
      Option.isNone_iff_eq_none.mp hcond
    unfold lookup_date_key at hnone
    cases hfind : st.rows.find? (fun p => p.1.full_date == r.full_date) with
    | some y => rw [hfind] at hnone; simp at hnone
    | none =>
      have hall := List.find?_eq_none.mp hfind
      obtain ⟨pr, hpr, hprx⟩ := List.mem_map.mp hx1
      exact hall pr hpr (by rw [hprx, hrx]; simp)

/-- Witness for C1 at a concrete store and date set: an empty store and
the single load date 2024-01-01. -/
theorem C1_reconcile_dates_idempotent_witness :
    (reconcile_dates (reconcile_dates ⟨[], 0⟩ [someDate]).1 [someDate]).2
        = 0 ∧
    (reconcile_dates (reconcile_dates ⟨[], 0⟩ [someDate]).1 [someDate]).1
        = (reconcile_dates ⟨[], 0⟩ [someDate]).1 ∧
    lookup_date_key
        (reconcile_dates (reconcile_dates ⟨[], 0⟩ [someDate]).1 [someDate]).1
        someDate
      = lookup_date_key (reconcile_dates ⟨[], 0⟩ [someDate]).1 someDate ∧
    ((((⟨[], 0⟩ : DateStore)).rows.map (fun p => p.1.full_date)).Nodup ∧
      ([someDate].Nodup ∧
        ((reconcile_dates ⟨[], 0⟩ [someDate]).1.rows.map
          (fun p => p.1.full_date)).Nodup)) := by
  have h := C1_reconcile_dates_idempotent ⟨[], 0⟩ [someDate]
  exact ⟨h.1, h.2.1, h.2.2.1 someDate,
    by decide, by decide, h.2.2.2 (by decide) (by decide)⟩

/-- One step of the company loop changes the store only when the
company's sub-transaction does not fail, in which case the change is the
success-path effect. -/
lemma process_company_store (err : CompanyRow → Bool)
    (s : CompanyCycleState) (r : CompanyRow) :
    (process_company err s r).store
      = if err r then s.store else apply_company s.store r := by
  by_cases h : err r
  · rw [process_company, if_pos h, if_pos h]
  · rw [process_company, if_neg h, if_neg h]
    unfold apply_company
    cases lookupCompany s.store r.company_name <;> rfl

/-- One step of the company loop appends exactly one key-map entry,
carrying the company's name. -/
lemma process_company_keymap (err : CompanyRow → Bool)
    (s : CompanyCycleState) (r : CompanyRow) :
    ∃ k : Option ℕ,
      (process_company err s r).keymap = s.keymap ++ [(r.company_name, k)] ∧
      (err r = true → k = none) := by
  by_cases h : err r
  · exact ⟨none, by rw [process_company, if_pos h], fun _ => rfl⟩
  · rw [process_company, if_neg h]
    cases hl : lookupCompany s.store r.company_name with
    | some k => exact ⟨some k, rfl, fun hc => absurd hc (by simp [h])⟩
    | none => exact ⟨_, rfl, fun hc => absurd hc (by simp [h])⟩

lemma reconcile_foldl_keymap_names (err : CompanyRow → Bool)
    (rows : List CompanyRow) :
    ∀ s : CompanyCycleState,
      (rows.foldl (process_company err) s).keymap.map (fun e => e.1)
        = s.keymap.map (fun e => e.1)
          ++ rows.map (fun r => r.company_name) := by
  induction rows with
  | nil => intro s; simp
  | cons r rest ih =>
    intro s
    rw [List.foldl_cons, ih]
    obtain ⟨k, hk, _⟩ := process_company_keymap err s r
    rw [hk]
    simp

lemma reconcile_foldl_keymap_mem (err : CompanyRow → Bool)
    (rows : List CompanyRow) :
    ∀ (s : CompanyCycleState) (x : List Char × Option ℕ),
      x ∈ s.keymap → x ∈ (rows.foldl (process_company err) s).keymap := by
  induction rows with
  | nil => intro s x hx; exact hx
  | cons r rest ih =>
    intro s x hx
    rw [List.foldl_cons]
    refine ih _ x ?_
    obtain ⟨k, hk, _⟩ := process_company_keymap err s r
    rw [hk]
    exact List.mem_append_left _ hx

lemma reconcile_foldl_failed (err : CompanyRow → Bool)
    (rows : List CompanyRow) :
    ∀ (s : CompanyCycleState) (r : CompanyRow), r ∈ rows → err r = true →
      (r.company_name, (none : Option ℕ))
        ∈ (rows.foldl (process_company err) s).keymap := by
  induction rows with
  | nil => intro s r hr; exact absurd hr (by simp)
  | cons a rest ih =>
    intro s r hr herr
    rw [List.foldl_cons]
    rcases List.mem_cons.mp hr with hr | hr
    · subst hr
      refine reconcile_foldl_keymap_mem err rest _ _ ?_
      obtain ⟨k, hk, hkn⟩ := process_company_keymap err s r
      rw [hk, hkn herr]
      exact List.mem_append_right _ (by simp)
    · exact ih _ r hr herr

lemma reconcile_foldl_store (err : CompanyRow → Bool)
    (rows : List CompanyRow) :
    ∀ s : CompanyCycleState,
      (rows.foldl (process_company err) s).store
        = (rows.filter (fun r => !err r)).foldl apply_company s.store := by
  induction rows with
  | nil => intro s; rfl
  | cons r rest ih =>
    intro s
    rw [List.foldl_cons, ih, List.filter_cons]
    have hs := process_company_store err s r
    by_cases h : err r
    · rw [if_pos h] at hs
      simp [h, hs]
    · rw [if_neg h] at hs
      have hb : err r = false := by simpa using h
      simp [hb, hs]

/-- Claim C3: `reconcile_companies` never raises out of its batch loop.
Whatever the per-company failures are: every company of the batch gets a
key-map entry in batch order; a company whose sub-transaction fails is
recorded with an absent key; and the store ends up exactly as if only
the non-failing companies had been processed — the failing company's
sub-transaction is rolled back while earlier companies' effects are
kept and later companies are still processed. -/
theorem C3_reconcile_companies_isolation (err : CompanyRow → Bool)
    (st : CompanyStore) (rows : List CompanyRow) :
    (reconcile_companies err st rows).keymap.map (fun e => e.1)
        = rows.map (fun r => r.company_name) ∧
    (∀ r ∈ rows, err r = true →
      (r.company_name, (none : Option ℕ))
        ∈ (reconcile_companies err st rows).keymap) ∧
    (reconcile_companies err st rows).store
      = (rows.filter (fun r => !err r)).foldl apply_company st := by
  refine ⟨?_, ?_, ?_⟩
  · have h := reconcile_foldl_keymap_names err rows ⟨st, [], 0, 0⟩
    simpa [reconcile_companies] using h
  · intro r hr herr
    exact reconcile_foldl_failed err rows _ r hr herr
  · exact reconcile_foldl_store err rows ⟨st, [], 0, 0⟩

/-- Witness for C3 at a concrete batch: companies `Acme`, `Bad`, `Beta`
where `Bad`'s sub-transaction fails.  `Bad` is mapped to an absent key,
and the store holds exactly `Acme` and `Beta`. -/
theorem C3_reconcile_companies_isolation_witness :
    (reconcile_companies (fun r => r.company_name == "Bad".toList)
        ⟨[], 0⟩ [acmeTech, badRow, betaRow]).keymap.map (fun e => e.1)
        = [acmeTech, badRow, betaRow].map (fun r => r.company_name) ∧
    badRow ∈ [acmeTech, badRow, betaRow] ∧
    (fun r : CompanyRow => r.company_name == "Bad".toList) badRow = true ∧
    ("Bad".toList, (none : Option ℕ))
      ∈ (reconcile_companies (fun r => r.company_name == "Bad".toList)
          ⟨[], 0⟩ [acmeTech, badRow, betaRow]).keymap ∧
    (reconcile_companies (fun r => r.company_name == "Bad".toList)
        ⟨[], 0⟩ [acmeTech, badRow, betaRow]).store
      = ([acmeTech, badRow, betaRow].filter
          (fun r => !(r.company_name == "Bad".toList))).foldl
            apply_company ⟨[], 0⟩ := by
  have h := C3_reconcile_companies_isolation
    (fun r => r.company_name == "Bad".toList) ⟨[], 0⟩
    [acmeTech, badRow, betaRow]
  exact ⟨h.1, by decide, by decide,
    h.2.1 badRow (by decide) (by decide), h.2.2⟩

/-- Claim C4 (code bug): the `DateReconcile fails -> CycleAborted`
short-circuit is real — a failing `dim_date` insert aborts the cycle
with the warehouse untouched and no company or fact write attempted
(first conjunct) — but `FactUpsert never aborts the cycle` is not: when
a company's sub-transaction fails, its fact row carries the NaN company
key, line 224's `int()` crashes before the per-row `try`, the exception
reaches the line 255-258 handler, and the cycle aborts instead of
reaching Done (second conjunct).  A cycle with no such failure does
reach `done` (third conjunct). -/
theorem C4_cycle_fact_crash :
    run_cycle true (fun _ => true) (fun _ => .error) emptyWarehouse someDate
        [⟨acmeTech, noFacts⟩]
      = (.abortedDate, emptyWarehouse, []) ∧
    (run_cycle false (fun r => r.company_name == "Bad".toList)
        (fun _ => .ok 1) emptyWarehouse someDate [⟨badRow, noFacts⟩]).1
      = .abortedFact ∧
    (run_cycle false (fun _ => false) (fun _ => .ok 1) emptyWarehouse
        someDate [⟨acmeTech, noFacts⟩]).1 = .done 1 1 0 1 0 := by
  exact ⟨by decide, by decide, by decide⟩

/-- The cleaning prelude leaves a plain numeric string unchanged. -/
lemma pyClean_plain {ns : List Char} (hall : ns.all plainNumChar = true) :
    pyClean ns = ns := by
  have hmem := List.all_eq_true.mp hall
  unfold pyClean
  rw [removeCharL_eq_self
      (fun c hc => plainNumChar_ne (hmem c hc) '$' (by decide)),
    removeCharL_eq_self
      (fun c hc => plainNumChar_ne (hmem c hc) ',' (by decide)),
    trimL_eq_self (fun c hc => plainNumChar_not_whitespace (hmem c hc))]

/-- The cleaning prelude on a plain numeric string with a one-character
suffix that is not `$`, `,` or whitespace just drops nothing. -/
lemma pyClean_plain_suffix {ns : List Char} (hall : ns.all plainNumChar = true)
    {c : Char} (hc1 : c ≠ '$') (hc2 : c ≠ ',')
    (hc3 : c.isWhitespace = false) :
    pyClean (ns ++ [c]) = ns ++ [c] := by
  have hmem := List.all_eq_true.mp hall
  have hd : ∀ x ∈ ns ++ [c], x ≠ '$' := by
    intro x hx
    rcases List.mem_append.mp hx with hx | hx
    · exact plainNumChar_ne (hmem x hx) '$' (by decide)
    · rw [List.mem_singleton.mp hx]; exact hc1
  have hco : ∀ x ∈ ns ++ [c], x ≠ ',' := by
    intro x hx
    rcases List.mem_append.mp hx with hx | hx
    · exact plainNumChar_ne (hmem x hx) ',' (by decide)
    · rw [List.mem_singleton.mp hx]; exact hc2
  have hw : ∀ x ∈ ns ++ [c], x.isWhitespace = false := by
    intro x hx
    rcases List.mem_append.mp hx with hx | hx
    · exact plainNumChar_not_whitespace (hmem x hx)
    · rw [List.mem_singleton.mp hx]; exact hc3
  unfold pyClean
  rw [removeCharL_eq_self hd, removeCharL_eq_self hco, trimL_eq_self hw]

/-- The cleaning prelude on `$` followed by a plain numeric string with
such a suffix drops exactly the dollar sign. -/
lemma pyClean_dollar_suffix {ns : List Char}
    (hall : ns.all plainNumChar = true) {c : Char} (hc1 : c ≠ '$')
    (hc2 : c ≠ ',') (hc3 : c.isWhitespace = false) :
    pyClean ('$' :: (ns ++ [c])) = ns ++ [c] := by
  have h := pyClean_plain_suffix hall hc1 hc2 hc3
  unfold pyClean at h ⊢
  rw [show removeCharL '$' ('$' :: (ns ++ [c]))
      = removeCharL '$' (ns ++ [c]) by simp [removeCharL, List.filter_cons]]
  exact h

/-- A lowercased plain numeric string is never the literal `none`. -/
lemma toLower_plain_ne_none {ns : List Char}
    (hall : ns.all plainNumChar = true) :
    toLowerL ns ≠ "none".toList := by
  intro hc
  have hmemn : 'n' ∈ toLowerL ns := by rw [hc]; decide
  obtain ⟨c, hcm, hcl⟩ := List.mem_map.mp hmemn
  have hpc := List.all_eq_true.mp hall c hcm
  rw [plainNumChar_toLower hpc] at hcl
  subst hcl
  exact absurd hpc (by decide)

/-- A lowercased string ending in a character that does not lower to `e`
is never the literal `none`. -/
lemma toLower_snoc_ne_none (ns : List Char) {c : Char}
    (h : c.toLower ≠ 'e') : toLowerL (ns ++ [c]) ≠ "none".toList := by
  intro hc
  have h1 : (toLowerL (ns ++ [c])).getLast? = some c.toLower := by
    unfold toLowerL
    rw [List.map_append]
    exact List.getLast?_concat _
  rw [hc] at h1
  have h2 : ("none".toList).getLast? = some 'e' := by decide
  rw [h2] at h1
  exact h (by injection h1 with h1; rw [h1])

/-- A plain numeric string contains no `B` and no `M`. -/
lemma plain_hasChar_false {ns : List Char}
    (hall : ns.all plainNumChar = true) {x : Char}
    (hx : plainNumChar x = false) : hasChar x ns = false :=
  hasChar_eq_false (fun c hc =>
    plainNumChar_ne (List.all_eq_true.mp hall c hc) x hx)

/-- Removing the suffix character from a plain numeric string with that
suffix recovers the plain string. -/
lemma removeCharL_plain_snoc {ns : List Char}
    (hall : ns.all plainNumChar = true) {x : Char}
    (hx : plainNumChar x = false) :
    removeCharL x (ns ++ [x]) = ns := by
  unfold removeCharL
  rw [List.filter_append,
    List.filter_eq_self.mpr (fun c hc => by
      simpa using plainNumChar_ne (List.all_eq_true.mp hall c hc) x hx)]
  simp

/-- Claim C5: for every plain numeric string `n`: `$nB` normalizes to
`n * 1000`, `nM` normalizes to `n`, and bare `n` normalizes to `n`;
the case-insensitive literal `none` and the empty string (after
cleaning) normalize to absent; and a string none of whose parse attempts
succeeds normalizes to absent. -/
theorem C5_normalize_currency_forms :
    (∀ (ns : List Char) (n : ℚ), ns ≠ [] → ns.all plainNumChar = true →
      pyFloat ns = some n →
      clean_currency_value (.str ('$' :: (ns ++ ['B']))) = .num (n * 1000) ∧
      clean_currency_value (.str (ns ++ ['M'])) = .num n ∧
      clean_currency_value (.str ns) = .num n) ∧
    (∀ s : List Char,
      toLowerL (pyClean s) = "none".toList ∨ pyClean s = [] →
      clean_currency_value (.str s) = .absent) ∧
    (∀ s : List Char,
      pyFloat (removeCharL 'B' (pyClean s)) = none →
      pyFloat (removeCharL 'M' (pyClean s)) = none →
      pyFloat (pyClean s) = none →
      clean_currency_value (.str s) = .absent) := by
  refine ⟨?_, ?_, ?_⟩
  · intro ns n hne hall hpf
    refine ⟨?_, ?_, ?_⟩
    · rw [clean_str_eval,
        pyClean_dollar_suffix hall (by decide) (by decide) (by decide)]
      rw [if_neg ?_, if_pos ?_]
      · rw [removeCharL_plain_snoc hall (by decide), hpf]
        rfl
      · unfold hasChar
        rw [List.any_append]
        simp
      · rintro (hcon | hcon)
        · exact toLower_snoc_ne_none ns (by decide) hcon
        · simp at hcon
    · rw [clean_str_eval,
        pyClean_plain_suffix hall (by decide) (by decide) (by decide)]
      rw [if_neg ?_, if_neg ?_, if_pos ?_]
      · rw [removeCharL_plain_snoc hall (by decide), hpf]
        rfl
      · unfold hasChar
        rw [List.any_append]
        simp
      · rw [show hasChar 'B' (ns ++ ['M'])
            = (hasChar 'B' ns || hasChar 'B' ['M']) from List.any_append,
          plain_hasChar_false hall (by decide)]
        decide
      · rintro (hcon | hcon)
        · exact toLower_snoc_ne_none ns (by decide) hcon
        · simp at hcon
    · rw [clean_str_eval, pyClean_plain hall]
      have hB : hasChar 'B' ns = false := plain_hasChar_false hall (by decide)
      have hM : hasChar 'M' ns = false := plain_hasChar_false hall (by decide)
      rw [if_neg ?_, if_neg (by simp [hB]), if_neg (by simp [hM]), hpf]
      · rfl
      · rintro (hcon | hcon)
        · exact toLower_plain_ne_none hall hcon
        · exact hne hcon
  · intro s h
    rw [clean_str_eval, if_pos h]
  · intro s h1 h2 h3
    rw [clean_str_eval]
    by_cases hc : toLowerL (pyClean s) = "none".toList ∨ pyClean s = []
    · rw [if_pos hc]
    · rw [if_neg hc]
      by_cases hB : hasChar 'B' (pyClean s) = true
      · rw [if_pos hB, h1]; rfl
      · rw [if_neg hB]
        by_cases hM : hasChar 'M' (pyClean s) = true
        · rw [if_pos hM, h2]; rfl
        · rw [if_neg hM, h3]; rfl

/-- Witness for C5 at the concrete strings `$2B`, `2M`, `2`, `None`, the
empty string and `abc`. -/
theorem C5_normalize_currency_forms_witness :
    clean_currency_value (.str ("$2B".toList)) = .num 2000 ∧
    clean_currency_value (.str ("2M".toList)) = .num 2 ∧
    clean_currency_value (.str ("2".toList)) = .num 2 ∧
    clean_currency_value (.str ("None".toList)) = .absent ∧
    clean_currency_value (.str ("".toList)) = .absent ∧
    clean_currency_value (.str ("abc".toList)) = .absent := by
  have h := C5_normalize_currency_forms
  have h1 := h.1 ("2".toList) 2 (by decide) (by decide) (by decide)
  refine ⟨?_, h1.2.1, h1.2.2, ?_, ?_, ?_⟩
  · have h2 : clean_currency_value (.str ("$2B".toList)) = .num (2 * 1000) :=
      h1.1
    rw [h2, show (2 : ℚ) * 1000 = 2000 by norm_num]
  · exact h.2.1 ("None".toList) (by decide)
  · exact h.2.1 ("".toList) (by decide)
  · exact h.2.2 ("abc".toList) (by decide) (by decide) (by decide)

/-- Counterexample to C6 as stated: in `1B2` the `B` is not trailing and
the string does not parse directly as a number, yet `normalize_currency`
scales by 1000 (it checks `'B' in s`, not a trailing suffix), returning
12000 instead of absent. -/
theorem C6_trailing_suffix_counterexample :
    clean_currency_value (.str ("1B2".toList)) = .num 12000 ∧
    ("1B2".toList).getLast? ≠ some 'B' ∧
    pyFloat ("1B2".toList) = none := by
  refine ⟨?_, by decide, by decide⟩
  have h1 : pyFloat (removeCharL 'B' (pyClean ("1B2".toList))) = some 12 := by
    decide
  rw [clean_str_eval, if_neg (by decide), if_pos (by decide), h1]
  show PyVal.num (12 * 1000) = PyVal.num 12000
  rw [show (12 : ℚ) * 1000 = 12000 by norm_num]

/-- Claim C6 as amended: `normalize_currency` scales by 1000 exactly
when the cleaned string contains a `B` *anywhere* (checked before `M`,
all `B`s removed before parsing); it leaves the value unscaled when the
string contains an `M` but no `B`; and it parses the string directly
exactly when it contains neither — a `B` or `M` in a non-trailing
position is treated as the unit suffix too. -/
theorem C6_unit_scaling_by_contains (s : List Char)
    (h1 : ¬(toLowerL (pyClean s) = "none".toList ∨ pyClean s = [])) :
    (hasChar 'B' (pyClean s) = true →
      clean_currency_value (.str s)
        = toPyNum ((pyFloat (removeCharL 'B' (pyClean s))).map
            (fun q => q * 1000))) ∧
    (hasChar 'B' (pyClean s) = false → hasChar 'M' (pyClean s) = true →
      clean_currency_value (.str s)
        = toPyNum (pyFloat (removeCharL 'M' (pyClean s)))) ∧
    (hasChar 'B' (pyClean s) = false → hasChar 'M' (pyClean s) = false →
      clean_currency_value (.str s) = toPyNum (pyFloat (pyClean s))) := by
  refine ⟨?_, ?_, ?_⟩
  · intro hB
    rw [clean_str_eval, if_neg h1, if_pos hB]
  · intro hB hM
    rw [clean_str_eval, if_neg h1, if_neg (by simp [hB]), if_pos hM]
  · intro hB hM
    rw [clean_str_eval, if_neg h1, if_neg (by simp [hB]),
      if_neg (by simp [hM])]

/-- Witness for C6 (amended) at `B12`, `1M2` and `7`: a leading `B`
still scales by 1000, an inner `M` is still the million suffix, and a
suffix-free string parses directly. -/
theorem C6_unit_scaling_by_contains_witness :
    clean_currency_value (.str ("B12".toList)) = .num 12000 ∧
    clean_currency_value (.str ("1M2".toList)) = .num 12 ∧
    clean_currency_value (.str ("7".toList)) = .num 7 := by
  refine ⟨?_, ?_, ?_⟩
  · have h := (C6_unit_scaling_by_contains ("B12".toList)
      (by decide)).1 (by decide)
    rw [h, show pyFloat (removeCharL 'B' (pyClean ("B12".toList)))
      = some 12 by decide]
    show PyVal.num (12 * 1000) = PyVal.num 12000
    rw [show (12 : ℚ) * 1000 = 12000 by norm_num]
  · have h := (C6_unit_scaling_by_contains ("1M2".toList)
      (by decide)).2.1 (by decide) (by decide)
    rw [h]
    decide
  · have h := (C6_unit_scaling_by_contains ("7".toList)
      (by decide)).2.2 (by decide) (by decide)
    rw [h]
    decide

/-- Witness for C9 at the concrete date 2024-01-01 (a Monday): the
derived fields agree and the row is determined by its `full_date`. -/
theorem C9_dim_date_derived_witness :
    (mkDimDateRow someDate).day_of_week = 0 ∧
    (mkDimDateRow someDate).is_weekday = true ∧
    ((mkDimDateRow someDate).is_weekday = true ↔
      (mkDimDateRow someDate).day_of_week < 5) ∧
    (mkDimDateRow someDate).full_date = (mkDimDateRow someDate).full_date ∧
    mkDimDateRow someDate = mkDimDateRow someDate := by
  have h := C9_dim_date_derived someDate
  exact ⟨by decide, by decide, h.2.2.2.2.2.2.1, rfl,
    h.2.2.2.2.2.2.2 someDate rfl⟩

end UnicornETL
